import Mathlib

/-!
Shallow embedding of the marketsched repository (Python) for checking its
natural-language specification.

Conventions of the embedding:
* Python `str` values are modelled as `List Char` (`PyStr`).
* Python `date` values appear in two roles and are modelled accordingly:
  - calendar arithmetic (weekday, day stepping) uses the proleptic Gregorian
    ordinal as an `Int` (`date.toordinal()`; `weekday = (ordinal + 6) % 7`,
    Monday = 0 .. Sunday = 6);
  - settlement-date records carry `(year, month, day)` triples (`Date`),
    compared lexicographically exactly as Python compares dates.
* Python `datetime.time` values are microseconds of the day (`Nat`).
* Timezone-aware timestamps in cache metadata are modelled as `Int`
  (epoch microseconds); awareness itself is enforced by the pydantic
  field type `AwareDatetime` and is therefore part of the type here.
* Fallible Python code returns `Except PyErr`.
-/

namespace MarketSched

/-- Error taxonomy of `exceptions.py`, together with the built-in Python
errors the code can produce. `searchExhausted` embeds the `RuntimeError`
raised by the bounded business-day search (the error the spec names
`SearchExhausted`); `validationError` embeds pydantic `ValidationError`
(a `ValueError`). -/
inductive PyErr where
  | typeError : PyErr
  | validationError : PyErr
  | cacheNotAvailable : PyErr
  | sqDataNotFound (year month : Int) : PyErr
  | timezoneRequired : PyErr
  | searchExhausted : PyErr
  | contractMonthParseFailed : PyErr
  deriving DecidableEq

/-- Embeds calling the class `CacheNotAvailableError` with `argCount`
positional arguments. Its `__init__` (exceptions.py lines 129-133) accepts
no argument besides `self`, so any call that passes a message - as
`query.py` lines 54-57 and 67-72 do - raises `TypeError` instead of
producing the exception. -/
def callCacheNotAvailableError (argCount : Nat) : PyErr :=
  if argCount = 0 then .cacheNotAvailable else .typeError

/-! ### Strings as lists of characters -/

/-- Python strings are modelled as lists of characters. -/
abbrev PyStr := List Char

/-- Decimal digit character, used by `str(int)` and by f-string padding. -/
def digitChar : Nat → Char
  | 0 => '0'
  | 1 => '1'
  | 2 => '2'
  | 3 => '3'
  | 4 => '4'
  | 5 => '5'
  | 6 => '6'
  | 7 => '7'
  | 8 => '8'
  | 9 => '9'
  | _ => '0'

/-- Recursion core of decimal printing; the fuel only forces structural
recursion and never runs out when it starts at least one above the number
(the argument drops strictly at every step). -/
def natToDigitsGo : Nat → Nat → List Char → List Char
  | 0, _, acc => acc
  | fuel + 1, n, acc =>
      if n < 10 then digitChar n :: acc
      else natToDigitsGo fuel (n / 10) (digitChar (n % 10) :: acc)

/-- Decimal printing of a natural number (the digits of `str(n)` in Python),
most significant digit first, with an accumulator. -/
def natToDigits (n : Nat) (acc : List Char) : List Char :=
  natToDigitsGo (n + 1) n acc

/-- Digits of `str(n)` for a natural number `n`. -/
def natChars (n : Nat) : PyStr := natToDigits n []

/-- Characters of `str(i)` for a Python integer `i`. -/
def intStrChars (i : Int) : PyStr :=
  if i < 0 then '-' :: natChars (-i).toNat else natChars i.toNat

/-- Numeric value of a digit character (`int` applied to one digit). -/
def digitVal (c : Char) : Nat := c.toNat - 48

/-- Embedding of the regex class `\\d` (restricted to its ASCII core,
the only characters the repository ever produces): a decimal digit
character. -/
def isDigitChar (c : Char) : Bool := decide (48 ≤ c.toNat ∧ c.toNat ≤ 57)

/-- Value of a digit string starting from accumulator `a`
(`int` applied to a string of digits when `a = 0`). -/
def digitsValFrom (a : Nat) (cs : PyStr) : Nat :=
  cs.foldl (fun x c => 10 * x + digitVal c) a

/-- Value of a digit string (`int` applied to a string of digits). -/
def digitsToNat (cs : PyStr) : Nat := digitsValFrom 0 cs

/-- Python `str.strip()`: drop whitespace from both ends. -/
def pyStripChars (cs : PyStr) : PyStr :=
  ((cs.dropWhile Char.isWhitespace).reverse.dropWhile Char.isWhitespace).reverse

/-! ### ContractMonth (contract_month.py) -/

/-- The `ContractMonth` value object: a `(year, month)` pair.
Pydantic validation happens at construction, embedded by
`mkContractMonth`; code paths below only build it through that
constructor, mirroring the frozen pydantic model. -/
structure ContractMonth where
  year : Int
  month : Int
  deriving DecidableEq

/-- Embeds `ContractMonth(year=y, month=m)`: the field validators reject a
negative year and a month outside `[1, 12]` with a pydantic
`ValidationError` (a `ValueError`). -/
def mkContractMonth (y m : Int) : Except PyErr ContractMonth :=
  if y < 0 then .error .validationError
  else if 1 ≤ m ∧ m ≤ 12 then .ok ⟨y, m⟩
  else .error .validationError

/-- Embeds the f-string `f"{month:02d}"`: zero-padded to width 2. -/
def pad2Chars (m : Int) : PyStr :=
  if m < 0 then intStrChars m
  else if m < 10 then '0' :: natChars m.toNat
  else natChars m.toNat

/-- Embeds `ContractMonth.to_yyyymm`: `f"{self.year}{self.month:02d}"`.
Note the year is not zero-padded. -/
def toYyyymmChars (cm : ContractMonth) : PyStr :=
  intStrChars cm.year ++ pad2Chars cm.month

/-- Embeds the month part `\d{1,2}月限$` of the Japanese contract-month
pattern, with the greedy two-digit alternative tried first as the regex
engine does. Returns the digit characters of the month. -/
def jpMonthMatch : PyStr → Option PyStr
  | [a, b, c, d] =>
      if isDigitChar a = true ∧ isDigitChar b = true ∧ c = '月' ∧ d = '限' then some [a, b] else none
  | [a, c, d] =>
      if isDigitChar a = true ∧ c = '月' ∧ d = '限' then some [a] else none
  | _ => none

/-- Embeds one backtracking attempt of `^(\d{2,4})年(\d{1,2})月限$` that
binds exactly `k` year digits: the first `k` characters must be digits,
the next character must be `年`, and the rest must match the month part. -/
def jpTryYearLen (k : Nat) (cs : PyStr) : Option (PyStr × PyStr) :=
  if (cs.take k).length = k ∧ (cs.take k).all isDigitChar then
    match cs.drop k with
    | c :: rest =>
        if c = '年' then (jpMonthMatch rest).map (fun ms => (cs.take k, ms)) else none
    | [] => none
  else none

/-- Embeds the regex `^(\d{2,4})年(\d{1,2})月限$` of `ContractMonth.parse`:
the greedy quantifier tries 4, then 3, then 2 year digits. Returns the
digit characters of the year and of the month. -/
def japaneseMatch (cs : PyStr) : Option (PyStr × PyStr) :=
  (jpTryYearLen 4 cs).orElse fun _ =>
    (jpTryYearLen 3 cs).orElse fun _ => jpTryYearLen 2 cs

/-- Embeds the regex `^(\d{4})(\d{2})$`: exactly six digit characters,
split four and two. -/
def yyyymmMatch (cs : PyStr) : Option (PyStr × PyStr) :=
  if cs.length = 6 ∧ cs.all isDigitChar then some (cs.take 4, cs.drop 4) else none

/-- Embeds the regex `^(\d{4})-(\d{2})$`. -/
def yyyymmDashMatch (cs : PyStr) : Option (PyStr × PyStr) :=
  match cs with
  | [a, b, c, d, dash, e, f] =>
      if [a, b, c, d].all isDigitChar ∧ dash = '-' ∧ isDigitChar e = true ∧ isDigitChar f = true then
        some ([a, b, c, d], [e, f])
      else none
  | _ => none

/-- Embeds `ContractMonth._create_or_raise`: construct, converting a
validation failure into `ContractMonthParseError`. -/
def createOrRaise (y m : Int) : Except PyErr ContractMonth :=
  match mkContractMonth y m with
  | .ok cm => .ok cm
  | .error _ => .error .contractMonthParseFailed

/-- Embeds `ContractMonth.parse`: strip, then try the Japanese format
(with the two-digit-year rule `year < 100 -> 2000 + year`), then `YYYYMM`,
then `YYYY-MM`, else fail with `ContractMonthParseError`. -/
def parseContractMonth (text : PyStr) : Except PyErr ContractMonth :=
  let t := pyStripChars text
  match japaneseMatch t with
  | some (ys, ms) =>
      let y := digitsToNat ys
      let y2 : Int := if y < 100 then 2000 + (y : Int) else (y : Int)
      createOrRaise y2 (digitsToNat ms : Int)
  | none =>
  match yyyymmMatch t with
  | some (ys, ms) => createOrRaise (digitsToNat ys : Int) (digitsToNat ms : Int)
  | none =>
  match yyyymmDashMatch t with
  | some (ys, ms) => createOrRaise (digitsToNat ys : Int) (digitsToNat ms : Int)
  | none => .error .contractMonthParseFailed

/-! ### Dates carried by settlement records -/

/-- A Python `date` as a `(year, month, day)` triple; Python compares
dates chronologically, which on valid dates is the lexicographic order
on this triple. -/
structure Date where
  year : Int
  month : Int
  day : Int
  deriving DecidableEq

/-- Python `<=` on dates (lexicographic on year, month, day). -/
def dateLeb (a b : Date) : Bool :=
  decide (a.year < b.year ∨ (a.year = b.year ∧
    (a.month < b.month ∨ (a.month = b.month ∧ a.day ≤ b.day))))

/-- Python `<` on dates (lexicographic on year, month, day). -/
def dateLtb (a b : Date) : Bool :=
  decide (a.year < b.year ∨ (a.year = b.year ∧
    (a.month < b.month ∨ (a.month = b.month ∧ a.day < b.day))))

/-- Embeds Python `sorted` on a list of dates (ascending). -/
def pySortDates (l : List Date) : List Date :=
  List.insertionSort (fun a b => dateLeb a b = true) l

/-! ### Record shapes (jpx/data/init) -/

/-- The two cache data kinds of `DataType`. -/
inductive DataType where
  | sqDates : DataType
  | holidayTrading : DataType
  deriving DecidableEq

/-- An `SQDateRecord` row as persisted in the sq_dates cache table:
`contract_month` is stored as its `YYYYMM` string. -/
structure SQDateRecord where
  contract_month : PyStr
  last_trading_day : Date
  sq_date : Date
  product_category : PyStr
  deriving DecidableEq

/-- A `HolidayTradingRecord` row as persisted in the holiday_trading
cache table; the date is a calendar ordinal. -/
structure HolidayTradingRecord where
  date : Int
  holiday_name : PyStr
  is_trading : Bool
  is_confirmed : Bool
  deriving DecidableEq

/-- Modelled from the spec: `ParquetCacheManager` (the Reference Data
Store) is not present under src - only its tests and callers are. Per
spec section 4.1 and its unit tests, `read(kind)` returns the stored
records or the absent state, without consulting expiry. A store is
therefore the pair of optional record tables, one per data kind. -/
structure Store where
  sqTable : Option (List SQDateRecord)
  holidayTable : Option (List HolidayTradingRecord)
  deriving DecidableEq

/-! ### Data Query Layer (jpx/data/query.py) -/

/-- Embeds `JPXDataQuery._read_sq_dates`: `cache_manager.read(SQ_DATES)`
returns the table or `None`; on `None` the code evaluates
`CacheNotAvailableError(message)` - one positional argument. -/
def readSqDates (s : Store) : Except PyErr (List SQDateRecord) :=
  match s.sqTable with
  | none => .error (callCacheNotAvailableError 1)
  | some records => .ok records

/-- Embeds `JPXDataQuery._read_holidays`: as `readSqDates` but for the
holiday_trading kind. -/
def readHolidays (s : Store) : Except PyErr (List HolidayTradingRecord) :=
  match s.holidayTable with
  | none => .error (callCacheNotAvailableError 1)
  | some records => .ok records

/-- Embeds `JPXDataQuery.get_sq_date`: read the table, build the target
string `ContractMonth(year, month).to_yyyymm()` (construction validates),
then linearly scan for the first record whose `contract_month` equals the
target; `none` when no record matches. -/
def queryGetSqDate (s : Store) (year month : Int) : Except PyErr (Option Date) := do
  let records ← readSqDates s
  let cm ← mkContractMonth year month
  let target := toYyyymmChars cm
  .ok ((records.find? (fun r => r.contract_month == target)).map (fun r => r.sq_date))

/-- Embeds `JPXDataQuery.get_sq_dates_for_year`: read the table, keep the
records whose `contract_month` string starts with `str(year)`, collect
their sq dates and sort ascending. -/
def queryGetSqDatesForYear (s : Store) (year : Int) : Except PyErr (List Date) := do
  let records ← readSqDates s
  let yearChars := intStrChars year
  .ok (pySortDates ((records.filter
        (fun r => yearChars.isPrefixOf r.contract_month)).map (fun r => r.sq_date)))

/-- Embeds `JPXDataQuery.is_holiday_trading_day`: true iff some record has
this date with `is_trading` set. -/
def queryIsHolidayTradingDay (s : Store) (d : Int) : Except PyErr Bool := do
  let records ← readHolidays s
  .ok (records.any (fun r => r.date == d && r.is_trading))

/-- Embeds `JPXDataQuery.get_non_trading_holidays`: the dates of the
records with `is_trading` unset. The Python set is modelled as the list of
those dates; only membership is ever consumed. -/
def queryGetNonTradingHolidays (s : Store) : Except PyErr (List Int) := do
  let records ← readHolidays s
  .ok ((records.filter (fun r => !r.is_trading)).map (fun r => r.date))

/-! ### Calendar Engine (jpx/calendar.py) -/

/-- Embeds `date.weekday()` on the proleptic Gregorian ordinal:
Monday is 0 and Sunday is 6 (ordinal 1, 0001-01-01, was a Monday). -/
def weekday (d : Int) : Int := (d + 6) % 7

/-- Embeds `JPXCalendar._is_weekend`: `d.weekday() >= 5`. -/
def isWeekend (d : Int) : Bool := weekday d ≥ 5

/-- Embeds `JPXCalendar.is_business_day`: weekends are never business
days; otherwise a holiday trading day is one; otherwise the date must not
be a non-trading holiday. -/
def calIsBusinessDay (s : Store) (d : Int) : Except PyErr Bool :=
  if isWeekend d then .ok false
  else
    match queryIsHolidayTradingDay s d with
    | .error e => .error e
    | .ok true => .ok true
    | .ok false =>
        match queryGetNonTradingHolidays s with
        | .error e => .error e
        | .ok nth => .ok (!(nth.contains d))

/-- The bound `MAX_SEARCH_DAYS` of jpx/calendar.py. -/
def MAX_SEARCH_DAYS : Nat := 365

/-- Embeds the loop of `JPXCalendar.next_business_day`: test up to `fuel`
consecutive candidates starting at `cur`, stepping forward; when the fuel
runs out the source raises `RuntimeError` (the spec name is
`SearchExhausted`). -/
def nextBusinessDayAux (s : Store) : Nat → Int → Except PyErr Int
  | 0, _ => .error .searchExhausted
  | fuel + 1, cur =>
      match calIsBusinessDay s cur with
      | .error e => .error e
      | .ok true => .ok cur
      | .ok false => nextBusinessDayAux s fuel (cur + 1)

/-- Embeds `JPXCalendar.next_business_day`: start at `d + 1`. -/
def calNextBusinessDay (s : Store) (d : Int) : Except PyErr Int :=
  nextBusinessDayAux s MAX_SEARCH_DAYS (d + 1)

/-- Embeds the loop of `JPXCalendar.previous_business_day`, stepping
backward. -/
def prevBusinessDayAux (s : Store) : Nat → Int → Except PyErr Int
  | 0, _ => .error .searchExhausted
  | fuel + 1, cur =>
      match calIsBusinessDay s cur with
      | .error e => .error e
      | .ok true => .ok cur
      | .ok false => prevBusinessDayAux s fuel (cur - 1)

/-- Embeds `JPXCalendar.previous_business_day`: start at `d - 1`. -/
def calPreviousBusinessDay (s : Store) (d : Int) : Except PyErr Int :=
  prevBusinessDayAux s MAX_SEARCH_DAYS (d - 1)

/-- Embeds the `while current <= end` loop of
`JPXCalendar.get_business_days`; the fuel is the number of remaining loop
iterations, `end - current + 1`. -/
def businessDaysAux (s : Store) : Nat → Int → Except PyErr (List Int)
  | 0, _ => .ok []
  | fuel + 1, cur => do
      let b ← calIsBusinessDay s cur
      let rest ← businessDaysAux s fuel (cur + 1)
      .ok (if b then cur :: rest else rest)

/-- Embeds `JPXCalendar.get_business_days`: empty when `start > end`, else
walk the inclusive range collecting business days. -/
def calGetBusinessDays (s : Store) (start stop : Int) : Except PyErr (List Int) :=
  if start > stop then .ok []
  else businessDaysAux s (stop - start + 1).toNat start

/-- Embeds `JPXCalendar.count_business_days`:
`len(self.get_business_days(start, end))`. -/
def calCountBusinessDays (s : Store) (start stop : Int) : Except PyErr Nat :=
  (calGetBusinessDays s start stop).map List.length

/-- Embeds `JPXCalendar.get_sq_date`: delegate to the query layer and turn
the `None` answer into `SQDataNotFoundError(year, month)`. -/
def calGetSqDate (s : Store) (year month : Int) : Except PyErr Date :=
  match queryGetSqDate s year month with
  | .error e => .error e
  | .ok none => .error (.sqDataNotFound year month)
  | .ok (some dt) => .ok dt

/-- Embeds `JPXCalendar.is_sq_date`: look up `get_sq_date(d.year, d.month)`
and compare with `d`; lookup failures propagate. -/
def calIsSqDate (s : Store) (d : Date) : Except PyErr Bool :=
  match calGetSqDate s d.year d.month with
  | .error e => .error e
  | .ok sq => .ok (sq = d)

/-- Embeds `JPXCalendar.get_sq_dates_for_year`: delegate to the query
layer and raise `SQDataNotFoundError(year, 1)` when the list is empty. -/
def calGetSqDatesForYear (s : Store) (year : Int) : Except PyErr (List Date) :=
  match queryGetSqDatesForYear s year with
  | .error e => .error e
  | .ok [] => .error (.sqDataNotFound year 1)
  | .ok dates => .ok dates

/-! ### Session Resolver (jpx/session.py, session.py, jpx/index.py) -/

/-- The `TradingSession` enumeration. -/
inductive TradingSession where
  | DAY : TradingSession
  | NIGHT : TradingSession
  | CLOSED : TradingSession
  deriving DecidableEq

/-- Embeds `TradingSession.is_trading`: true for DAY and NIGHT. -/
def TradingSession.isTradingState (s : TradingSession) : Bool :=
  s == .DAY || s == .NIGHT

/-- Microseconds of the day for a wall-clock `time(h, m)`. -/
def hmUs (h m : Nat) : Nat := (h * 3600 + m * 60) * 1000000

/-- `JPXIndexSessionTimes.DAY_START`, `time(8, 45)`. -/
def DAY_START : Nat := hmUs 8 45

/-- `JPXIndexSessionTimes.DAY_END`, `time(15, 45)`. -/
def DAY_END : Nat := hmUs 15 45

/-- `JPXIndexSessionTimes.NIGHT_START`, `time(17, 0)`. -/
def NIGHT_START : Nat := hmUs 17 0

/-- `JPXIndexSessionTimes.NIGHT_END`, `time(6, 0)`. -/
def NIGHT_END : Nat := hmUs 6 0

/-- Embeds `JPXIndexSessionTimes.is_day_session`:
`DAY_START <= t <= DAY_END`, both bounds inclusive. -/
def isDaySession (t : Nat) : Bool := decide (DAY_START ≤ t ∧ t ≤ DAY_END)

/-- Embeds `JPXIndexSessionTimes.is_night_session`:
`t >= NIGHT_START or t < NIGHT_END` (the overnight wraparound). -/
def isNightSession (t : Nat) : Bool := decide (NIGHT_START ≤ t ∨ t < NIGHT_END)

/-- Embeds `JPXIndexSessionTimes.is_trading_time`. -/
def isTradingTime (t : Nat) : Bool := isDaySession t || isNightSession t

/-- A Python `datetime` as consumed by `JPXIndex.get_session`: only the
time of day (microseconds) and the UTC offset of its `tzinfo` matter,
since the session windows test `dt.time()` after timezone conversion.
`tzOffset` is the offset from UTC in seconds; `none` models a naive
datetime. -/
structure PyDatetime where
  timeOfDayUs : Nat
  tzOffset : Option Int
  deriving DecidableEq

/-- The fixed UTC offset of `ZoneInfo("Asia/Tokyo")`, in seconds. -/
def tokyoOffsetSeconds : Int := 9 * 3600

/-- Time of day in Asia/Tokyo of an aware datetime, as computed by
`dt.astimezone(ZoneInfo("Asia/Tokyo")).time()`: subtract the datetime's
own offset to reach UTC, add nine hours, wrap at 24 hours. -/
def toTokyoTimeOfDayUs (timeUs : Nat) (offsetSeconds : Int) : Nat :=
  (((timeUs : Int) - offsetSeconds * 1000000 + tokyoOffsetSeconds * 1000000) % 86400000000).toNat

/-- Embeds `JPXIndex.get_session`. `nowTokyoUs` stands for
`datetime.now(self._TIMEZONE).time()`, the current wall-clock time of day
in the market timezone, substituted when the argument is absent. A naive
datetime fails `_validate_timezone` with `TimezoneRequiredError`; an aware
one is converted to Asia/Tokyo first. Then the day window is tested, then
the night window, otherwise the session is CLOSED. -/
def getSession (dt : Option PyDatetime) (nowTokyoUs : Nat) : Except PyErr TradingSession :=
  match dt with
  | none =>
      let t := nowTokyoUs
      if isDaySession t then .ok .DAY
      else if isNightSession t then .ok .NIGHT
      else .ok .CLOSED
  | some d =>
      match d.tzOffset with
      | none => .error .timezoneRequired
      | some off =>
          let t := toTokyoTimeOfDayUs d.timeOfDayUs off
          if isDaySession t then .ok .DAY
          else if isNightSession t then .ok .NIGHT
          else .ok .CLOSED

/-- Embeds `JPXIndex.is_trading_hours`: the session is not CLOSED;
errors from `get_session` propagate. -/
def isTradingHours (dt : Option PyDatetime) (nowTokyoUs : Nat) : Except PyErr Bool :=
  (getSession dt nowTokyoUs).map (fun s => s != .CLOSED)

/-! ### Cache metadata (jpx/data/init, CacheMetadata) -/

/-- The `CacheMetadata` pydantic model. The two timestamps are
timezone-aware by their field type `AwareDatetime`; they are modelled as
instants (epoch microseconds). -/
structure CacheMetadata where
  data_type : DataType
  source_url : PyStr
  fetched_at : Int
  expires_at : Int
  schema_version : Int
  record_count : Int
  deriving DecidableEq

/-- Embeds constructing `CacheMetadata(...)`: the model validator
`validate_metadata` rejects `expires_at <= fetched_at`, then a negative
`record_count`, then `schema_version < 1`, with a pydantic
`ValidationError`; otherwise the frozen instance is produced. -/
def mkCacheMetadata (dt : DataType) (url : PyStr) (fetched expires sv rc : Int) :
    Except PyErr CacheMetadata :=
  if expires ≤ fetched then .error .validationError
  else if rc < 0 then .error .validationError
  else if sv < 1 then .error .validationError
  else .ok ⟨dt, url, fetched, expires, sv, rc⟩

/-! ### Helper definitions used only by the theorems -/

/-- The pure value of `is_business_day` over loaded holiday records; the
lemma `calIsBusinessDay_eq_pure` proves it agrees with the engine whenever
the holiday cache is present. -/
def bdPure (records : List HolidayTradingRecord) (d : Int) : Bool :=
  if isWeekend d then false
  else if records.any (fun r => r.date == d && r.is_trading) then true
  else !(((records.filter (fun r => !r.is_trading)).map (fun r => r.date)).contains d)

/-- The list `[c, c + 1, ..., c + n - 1]` of consecutive ordinals. -/
def rangeList : Int → Nat → List Int
  | _, 0 => []
  | c, n + 1 => c :: rangeList (c + 1) n

/-- Decidable equality of `Except` results, so that concrete runs of the
embedded operations can be checked by evaluation. -/
instance exceptDecEq {ε α : Type} [DecidableEq ε] [DecidableEq α] :
    DecidableEq (Except ε α) := fun x y =>
  match x, y with
  | .ok a, .ok b =>
      if h : a = b then .isTrue (by rw [h]) else .isFalse (by simp [h])
  | .error a, .error b =>
      if h : a = b then .isTrue (by rw [h]) else .isFalse (by simp [h])
  | .ok _, .error _ => .isFalse (by simp)
  | .error _, .ok _ => .isFalse (by simp)

/-- The pure session classification of a market-local time of day, the
shared body of both branches of `getSession`: day window first, then night
window, otherwise CLOSED. -/
def sessionOf (t : Nat) : TradingSession :=
  if isDaySession t then .DAY
  else if isNightSession t then .NIGHT
  else .CLOSED

/-- Month part of a stored contract-month string: the value of the digits
after the four year digits (meaningful for four-digit-year encodings). -/
def cmMonthVal (cs : PyStr) : Nat := digitsToNat (cs.drop 4)

/-- Totality of the embedded Python date order, needed to reason about
`sorted`. -/
instance dateLeb_total : IsTotal Date (fun a b => dateLeb a b = true) := by
  constructor
  intro a b
  simp only [dateLeb, decide_eq_true_eq]
  omega

/-- Transitivity of the embedded Python date order, needed to reason about
`sorted`. -/
instance dateLeb_trans : IsTrans Date (fun a b => dateLeb a b = true) := by
  constructor
  intro a b c
  simp only [dateLeb, decide_eq_true_eq]
  omega

/-- Concrete settlement table used by witnesses: a single record for
contract month 2026-03 with SQ date 2026-03-13. -/
def c4Records : List SQDateRecord :=
  [⟨toYyyymmChars ⟨2026, 3⟩, ⟨2026, 3, 12⟩, ⟨2026, 3, 13⟩, []⟩]

/-- Store holding only `c4Records`. -/
def c4Store : Store := ⟨some c4Records, none⟩

/-- Concrete settlement table exposing the year-prefix filter of
`get_sq_dates_for_year`: one record per month of 2026 plus one for
2027-01, every contract month distinct, every SQ date distinct. -/
def c6Records : List SQDateRecord :=
  [⟨toYyyymmChars ⟨2026, 1⟩, ⟨2026, 1, 8⟩, ⟨2026, 1, 9⟩, []⟩,
   ⟨toYyyymmChars ⟨2026, 2⟩, ⟨2026, 2, 12⟩, ⟨2026, 2, 13⟩, []⟩,
   ⟨toYyyymmChars ⟨2026, 3⟩, ⟨2026, 3, 12⟩, ⟨2026, 3, 13⟩, []⟩,
   ⟨toYyyymmChars ⟨2026, 4⟩, ⟨2026, 4, 9⟩, ⟨2026, 4, 10⟩, []⟩,
   ⟨toYyyymmChars ⟨2026, 5⟩, ⟨2026, 5, 7⟩, ⟨2026, 5, 8⟩, []⟩,
   ⟨toYyyymmChars ⟨2026, 6⟩, ⟨2026, 6, 11⟩, ⟨2026, 6, 12⟩, []⟩,
   ⟨toYyyymmChars ⟨2026, 7⟩, ⟨2026, 7, 9⟩, ⟨2026, 7, 10⟩, []⟩,
   ⟨toYyyymmChars ⟨2026, 8⟩, ⟨2026, 8, 13⟩, ⟨2026, 8, 14⟩, []⟩,
   ⟨toYyyymmChars ⟨2026, 9⟩, ⟨2026, 9, 10⟩, ⟨2026, 9, 11⟩, []⟩,
   ⟨toYyyymmChars ⟨2026, 10⟩, ⟨2026, 10, 8⟩, ⟨2026, 10, 9⟩, []⟩,
   ⟨toYyyymmChars ⟨2026, 11⟩, ⟨2026, 11, 12⟩, ⟨2026, 11, 13⟩, []⟩,
   ⟨toYyyymmChars ⟨2026, 12⟩, ⟨2026, 12, 10⟩, ⟨2026, 12, 11⟩, []⟩,
   ⟨toYyyymmChars ⟨2027, 1⟩, ⟨2027, 1, 7⟩, ⟨2027, 1, 8⟩, []⟩]

/-- Store holding only `c6Records`. -/
def c6Store : Store := ⟨some c6Records, none⟩

/-- The twelve month numbers, the universe the per-year settlement months
live in. -/
def month12List : List Nat := [1, 2, 3, 4, 5, 6, 7, 8, 9, 10, 11, 12]

end MarketSched

namespace MarketSched

/-! ### Decimal-string lemmas -/

theorem digitVal_digitChar {n : Nat} (h : n < 10) : digitVal (digitChar n) = n := by
  interval_cases n <;> decide

theorem isDigitChar_digitChar {n : Nat} (h : n < 10) : isDigitChar (digitChar n) = true := by
  interval_cases n <;> decide

theorem ne_of_isDigitChar {c : Char} (h : isDigitChar c = true) {d : Char}
    (hd : ¬(48 ≤ d.toNat ∧ d.toNat ≤ 57)) : c ≠ d := by
  have hc : 48 ≤ c.toNat ∧ c.toNat ≤ 57 := by simpa [isDigitChar] using h
  intro e
  exact hd (e ▸ hc)

theorem isWhitespace_eq_false_of_digit {c : Char} (h : isDigitChar c = true) :
    c.isWhitespace = false := by
  have h1 : c ≠ ' ' := ne_of_isDigitChar h (by decide)
  have h2 : c ≠ '\t' := ne_of_isDigitChar h (by decide)
  have h3 : c ≠ '\r' := ne_of_isDigitChar h (by decide)
  have h4 : c ≠ '\n' := ne_of_isDigitChar h (by decide)
  simp [Char.isWhitespace, h1, h2, h3, h4]

theorem dropWhile_eq_self_of_none (p : Char → Bool) (cs : List Char)
    (h : ∀ c ∈ cs, p c = false) : cs.dropWhile p = cs := by
  cases cs with
  | nil => rfl
  | cons x xs => simp [List.dropWhile_cons, h x (by simp)]

theorem pyStripChars_of_digits (cs : PyStr) (h : ∀ c ∈ cs, isDigitChar c = true) :
    pyStripChars cs = cs := by
  unfold pyStripChars
  rw [dropWhile_eq_self_of_none _ cs (fun c hc => isWhitespace_eq_false_of_digit (h c hc))]
  rw [dropWhile_eq_self_of_none _ cs.reverse
    (fun c hc => isWhitespace_eq_false_of_digit (h c (List.mem_reverse.mp hc)))]
  exact List.reverse_reverse cs

theorem natToDigitsGo_congr : ∀ (f1 f2 n : Nat) (acc : List Char), n < f1 → n < f2 →
    natToDigitsGo f1 n acc = natToDigitsGo f2 n acc := by
  intro f1
  induction f1 with
  | zero => intro f2 n acc h1 _; omega
  | succ f1 ih =>
      intro f2 n acc h1 h2
      cases f2 with
      | zero => omega
      | succ f2 =>
          by_cases hn : n < 10
          · simp [natToDigitsGo, hn]
          · simp only [natToDigitsGo, if_neg hn]
            exact ih f2 (n / 10) _ (by omega) (by omega)

theorem natToDigits_eq_small (n : Nat) (acc : List Char) (h : n < 10) :
    natToDigits n acc = digitChar n :: acc := by
  simp [natToDigits, natToDigitsGo, h]

theorem natToDigits_eq_large (n : Nat) (acc : List Char) (h : ¬ n < 10) :
    natToDigits n acc = natToDigits (n / 10) (digitChar (n % 10) :: acc) := by
  show natToDigitsGo (n + 1) n acc = natToDigitsGo (n / 10 + 1) (n / 10) _
  rw [show natToDigitsGo (n + 1) n acc
      = natToDigitsGo n (n / 10) (digitChar (n % 10) :: acc) by
    simp [natToDigitsGo, h]]
  exact natToDigitsGo_congr n (n / 10 + 1) (n / 10) _ (by omega) (by omega)

theorem natChars_four (n : Nat) (h1 : 1000 ≤ n) (h2 : n ≤ 9999) :
    natChars n =
      [digitChar (n / 1000), digitChar (n / 100 % 10), digitChar (n / 10 % 10),
        digitChar (n % 10)] := by
  unfold natChars
  rw [natToDigits_eq_large n _ (by omega), natToDigits_eq_large _ _ (by omega),
    natToDigits_eq_large _ _ (by omega), natToDigits_eq_small _ _ (by omega)]
  have e1 : n / 10 / 10 = n / 100 := by omega
  have e2 : n / 10 / 10 / 10 = n / 1000 := by omega
  rw [e2, e1]

theorem digitsToNat_four (w x y z : Nat) (hw : w < 10) (hx : x < 10) (hy : y < 10)
    (hz : z < 10) :
    digitsToNat [digitChar w, digitChar x, digitChar y, digitChar z] =
      ((w * 10 + x) * 10 + y) * 10 + z := by
  simp only [digitsToNat, digitsValFrom, List.foldl]
  rw [digitVal_digitChar hw, digitVal_digitChar hx, digitVal_digitChar hy,
    digitVal_digitChar hz]
  ring

theorem pad2Chars_length (m : Int) (h1 : 1 ≤ m) (h2 : m ≤ 12) :
    (pad2Chars m).length = 2 := by
  interval_cases m <;> decide

theorem pad2Chars_digits (m : Int) (h1 : 1 ≤ m) (h2 : m ≤ 12) :
    ∀ c ∈ pad2Chars m, isDigitChar c = true := by
  interval_cases m <;> decide

theorem pad2Chars_val (m : Int) (h1 : 1 ≤ m) (h2 : m ≤ 12) :
    digitsToNat (pad2Chars m) = m.toNat := by
  interval_cases m <;> decide

theorem intStrChars_four (y : Int) (h1 : 1000 ≤ y) (h2 : y ≤ 9999) :
    intStrChars y =
      [digitChar (y.toNat / 1000), digitChar (y.toNat / 100 % 10),
        digitChar (y.toNat / 10 % 10), digitChar (y.toNat % 10)] := by
  unfold intStrChars
  rw [if_neg (by omega)]
  exact natChars_four y.toNat (by omega) (by omega)

theorem toYyyymmChars_struct (y m : Int) (hy1 : 1000 ≤ y) (hy2 : y ≤ 9999)
    (hm1 : 1 ≤ m) (hm2 : m ≤ 12) :
    ∃ a b c d e f : Char,
      toYyyymmChars ⟨y, m⟩ = [a, b, c, d, e, f] ∧
      (∀ ch ∈ [a, b, c, d, e, f], isDigitChar ch = true) ∧
      digitsToNat [a, b, c, d] = y.toNat ∧
      digitsToNat [e, f] = m.toNat := by
  obtain ⟨e, f, hef⟩ := List.length_eq_two.mp (pad2Chars_length m hm1 hm2)
  refine ⟨digitChar (y.toNat / 1000), digitChar (y.toNat / 100 % 10),
    digitChar (y.toNat / 10 % 10), digitChar (y.toNat % 10), e, f, ?_, ?_, ?_, ?_⟩
  · show intStrChars y ++ pad2Chars m = _
    rw [intStrChars_four y hy1 hy2, hef]
    rfl
  · intro ch hch
    simp only [List.mem_cons, List.not_mem_nil, or_false] at hch
    have hdig := pad2Chars_digits m hm1 hm2
    rcases hch with rfl | rfl | rfl | rfl | rfl | rfl
    · exact isDigitChar_digitChar (by omega)
    · exact isDigitChar_digitChar (by omega)
    · exact isDigitChar_digitChar (by omega)
    · exact isDigitChar_digitChar (by omega)
    · exact hdig _ (by rw [hef]; simp)
    · exact hdig _ (by rw [hef]; simp)
  · rw [digitsToNat_four _ _ _ _ (by omega) (by omega) (by omega) (by omega)]
    omega
  · rw [← hef]
    exact pad2Chars_val m hm1 hm2

end MarketSched

namespace MarketSched

/-! ### Parse lemmas and claim C10 -/

theorem jpTryYearLen_digits_none (k : Nat) (cs : PyStr)
    (h : ∀ c ∈ cs, isDigitChar c = true) : jpTryYearLen k cs = none := by
  unfold jpTryYearLen
  by_cases hc : (cs.take k).length = k ∧ ((cs.take k).all isDigitChar) = true
  · cases hdrop : cs.drop k with
    | nil => rw [if_pos hc]
    | cons c0 rest =>
        have hmem : c0 ∈ cs :=
          List.drop_subset k cs (hdrop ▸ List.mem_cons_self c0 rest)
        have hne : c0 ≠ '年' := ne_of_isDigitChar (h c0 hmem) (by decide)
        rw [if_pos hc]
        simp [hne]
  · rw [if_neg hc]

theorem japaneseMatch_digits_none (cs : PyStr)
    (h : ∀ c ∈ cs, isDigitChar c = true) : japaneseMatch cs = none := by
  unfold japaneseMatch
  rw [jpTryYearLen_digits_none 4 cs h, jpTryYearLen_digits_none 3 cs h,
    jpTryYearLen_digits_none 2 cs h]
  rfl

theorem yyyymmMatch_six (a b c d e f : Char)
    (h : ∀ ch ∈ [a, b, c, d, e, f], isDigitChar ch = true) :
    yyyymmMatch [a, b, c, d, e, f] = some ([a, b, c, d], [e, f]) := by
  unfold yyyymmMatch
  rw [if_pos]
  · rfl
  · refine ⟨rfl, ?_⟩
    rw [List.all_eq_true]
    exact h

/-- Claim C10: for every ContractMonth with a four-digit year
(1000 <= year <= 9999) and a valid month, `ContractMonth.parse` applied to
`ContractMonth.to_yyyymm` succeeds and returns an equal ContractMonth -
parse is a left inverse of the YYYYMM printer on four-digit years. -/
theorem parse_toYyyymm_roundtrip (cm : ContractMonth) (hy1 : 1000 ≤ cm.year)
    (hy2 : cm.year ≤ 9999) (hm1 : 1 ≤ cm.month) (hm2 : cm.month ≤ 12) :
    parseContractMonth (toYyyymmChars cm) = .ok cm := by
  obtain ⟨y, m⟩ := cm
  simp only at hy1 hy2 hm1 hm2
  obtain ⟨a, b, c, d, e, f, hL, hdig, hv4, hv2⟩ :=
    toYyyymmChars_struct y m hy1 hy2 hm1 hm2
  rw [hL]
  have hstrip : pyStripChars [a, b, c, d, e, f] = [a, b, c, d, e, f] :=
    pyStripChars_of_digits _ hdig
  have hjp : japaneseMatch [a, b, c, d, e, f] = none :=
    japaneseMatch_digits_none _ hdig
  have hyy : yyyymmMatch [a, b, c, d, e, f] = some ([a, b, c, d], [e, f]) :=
    yyyymmMatch_six a b c d e f hdig
  simp only [parseContractMonth, hstrip, hjp, hyy]
  rw [hv4, hv2]
  rw [Int.toNat_of_nonneg (by omega : (0 : Int) ≤ y),
    Int.toNat_of_nonneg (by omega : (0 : Int) ≤ m)]
  unfold createOrRaise mkContractMonth
  rw [if_neg (by omega), if_pos ⟨hm1, hm2⟩]

/-- Witness for C10 at the concrete contract month 2026-03. -/
theorem parse_toYyyymm_roundtrip_witness :
    (1000 ≤ (⟨2026, 3⟩ : ContractMonth).year ∧ (⟨2026, 3⟩ : ContractMonth).year ≤ 9999 ∧
      1 ≤ (⟨2026, 3⟩ : ContractMonth).month ∧ (⟨2026, 3⟩ : ContractMonth).month ≤ 12) ∧
    parseContractMonth (toYyyymmChars ⟨2026, 3⟩) = .ok ⟨2026, 3⟩ :=
  ⟨by decide,
    parse_toYyyymm_roundtrip ⟨2026, 3⟩ (by decide) (by decide) (by decide) (by decide)⟩

end MarketSched

namespace MarketSched

/-! ### Session lemmas and claims C2, C8 -/

theorem getSession_some_eq (timeUs : Nat) (off : Int) (nowTokyoUs : Nat) :
    getSession (some ⟨timeUs, some off⟩) nowTokyoUs =
      .ok (sessionOf (toTokyoTimeOfDayUs timeUs off)) := by
  by_cases h1 : isDaySession (toTokyoTimeOfDayUs timeUs off) = true <;>
    by_cases h2 : isNightSession (toTokyoTimeOfDayUs timeUs off) = true <;>
    simp [getSession, sessionOf, h1, h2]

theorem getSession_none_eq (nowTokyoUs : Nat) :
    getSession none nowTokyoUs = .ok (sessionOf nowTokyoUs) := by
  by_cases h1 : isDaySession nowTokyoUs = true <;>
    by_cases h2 : isNightSession nowTokyoUs = true <;>
    simp [getSession, sessionOf, h1, h2]

theorem sessionOf_eq_DAY_iff (t : Nat) :
    sessionOf t = .DAY ↔ (DAY_START ≤ t ∧ t ≤ DAY_END) := by
  unfold sessionOf isDaySession isNightSession
  by_cases h1 : DAY_START ≤ t ∧ t ≤ DAY_END
  · simp [h1]
  · by_cases h2 : NIGHT_START ≤ t ∨ t < NIGHT_END <;> simp [h1, h2]

theorem sessionOf_eq_NIGHT_iff (t : Nat) :
    sessionOf t = .NIGHT ↔ (NIGHT_START ≤ t ∨ t < NIGHT_END) := by
  unfold sessionOf isDaySession isNightSession
  by_cases h1 : DAY_START ≤ t ∧ t ≤ DAY_END
  · by_cases h2 : NIGHT_START ≤ t ∨ t < NIGHT_END
    · exfalso
      simp only [DAY_START, DAY_END, NIGHT_START, NIGHT_END, hmUs] at h1 h2
      omega
    · simp [h1, h2]
  · by_cases h2 : NIGHT_START ≤ t ∨ t < NIGHT_END <;> simp [h1, h2]

theorem sessionOf_eq_CLOSED_iff (t : Nat) :
    sessionOf t = .CLOSED ↔
      ((NIGHT_END ≤ t ∧ t < DAY_START) ∨ (DAY_END < t ∧ t < NIGHT_START)) := by
  unfold sessionOf isDaySession isNightSession
  by_cases h1 : DAY_START ≤ t ∧ t ≤ DAY_END
  · rw [if_pos (by simpa using h1)]
    simp only [DAY_START, DAY_END, NIGHT_START, NIGHT_END, hmUs] at h1 ⊢
    constructor
    · intro hx
      exact absurd hx (by decide)
    · intro hx
      exfalso
      omega
  · rw [if_neg (by simpa using h1)]
    by_cases h2 : NIGHT_START ≤ t ∨ t < NIGHT_END
    · rw [if_pos (by simpa using h2)]
      simp only [DAY_START, DAY_END, NIGHT_START, NIGHT_END, hmUs] at h1 h2 ⊢
      push_neg at h1
      constructor
      · intro hx
        exact absurd hx (by decide)
      · intro hx
        exfalso
        omega
    · rw [if_neg (by simpa using h2)]
      simp only [DAY_START, DAY_END, NIGHT_START, NIGHT_END, hmUs] at h1 h2 ⊢
      push_neg at h1 h2
      constructor
      · intro _
        omega
      · intro _
        trivial

end MarketSched

namespace MarketSched

/-- Claim C2: for every timezone-aware instant, `get_session` returns
exactly one of DAY, NIGHT, CLOSED, determined by the market-local time of
day after conversion to Asia/Tokyo: DAY on the inclusive window
[08:45, 15:45], NIGHT when the time is at least 17:00 or before 06:00,
CLOSED otherwise; in particular 08:45 and 15:45 give DAY, 08:44 and 15:46
give CLOSED, 17:00 and 05:59 give NIGHT, and 06:00 exactly gives CLOSED. -/
theorem getSession_window_spec (timeUs : Nat) (off : Int) (nowTokyoUs : Nat) :
    (getSession (some ⟨timeUs, some off⟩) nowTokyoUs = .ok .DAY ↔
      DAY_START ≤ toTokyoTimeOfDayUs timeUs off ∧
        toTokyoTimeOfDayUs timeUs off ≤ DAY_END) ∧
    (getSession (some ⟨timeUs, some off⟩) nowTokyoUs = .ok .NIGHT ↔
      NIGHT_START ≤ toTokyoTimeOfDayUs timeUs off ∨
        toTokyoTimeOfDayUs timeUs off < NIGHT_END) ∧
    (getSession (some ⟨timeUs, some off⟩) nowTokyoUs = .ok .CLOSED ↔
      (NIGHT_END ≤ toTokyoTimeOfDayUs timeUs off ∧
          toTokyoTimeOfDayUs timeUs off < DAY_START) ∨
        (DAY_END < toTokyoTimeOfDayUs timeUs off ∧
          toTokyoTimeOfDayUs timeUs off < NIGHT_START)) ∧
    getSession (some ⟨hmUs 8 45, some tokyoOffsetSeconds⟩) 0 = .ok .DAY ∧
    getSession (some ⟨hmUs 15 45, some tokyoOffsetSeconds⟩) 0 = .ok .DAY ∧
    getSession (some ⟨hmUs 8 44, some tokyoOffsetSeconds⟩) 0 = .ok .CLOSED ∧
    getSession (some ⟨hmUs 15 46, some tokyoOffsetSeconds⟩) 0 = .ok .CLOSED ∧
    getSession (some ⟨hmUs 17 0, some tokyoOffsetSeconds⟩) 0 = .ok .NIGHT ∧
    getSession (some ⟨hmUs 5 59, some tokyoOffsetSeconds⟩) 0 = .ok .NIGHT ∧
    getSession (some ⟨hmUs 6 0, some tokyoOffsetSeconds⟩) 0 = .ok .CLOSED := by
  refine ⟨?_, ?_, ?_, by decide, by decide, by decide, by decide, by decide,
    by decide, by decide⟩ <;>
    rw [getSession_some_eq timeUs off nowTokyoUs]
  · rw [show (Except.ok (sessionOf (toTokyoTimeOfDayUs timeUs off)) :
        Except PyErr TradingSession) = .ok .DAY ↔
        sessionOf (toTokyoTimeOfDayUs timeUs off) = .DAY by simp]
    exact sessionOf_eq_DAY_iff _
  · rw [show (Except.ok (sessionOf (toTokyoTimeOfDayUs timeUs off)) :
        Except PyErr TradingSession) = .ok .NIGHT ↔
        sessionOf (toTokyoTimeOfDayUs timeUs off) = .NIGHT by simp]
    exact sessionOf_eq_NIGHT_iff _
  · rw [show (Except.ok (sessionOf (toTokyoTimeOfDayUs timeUs off)) :
        Except PyErr TradingSession) = .ok .CLOSED ↔
        sessionOf (toTokyoTimeOfDayUs timeUs off) = .CLOSED by simp]
    exact sessionOf_eq_CLOSED_iff _

/-- Witness for C2 at the concrete instant 09:00 UTC offset zero, which is
18:00 in Tokyo, inside the night window. -/
theorem getSession_window_spec_witness :
    getSession (some ⟨hmUs 9 0, some 0⟩) 0 = .ok .NIGHT :=
  ((getSession_window_spec (hmUs 9 0) 0 0).2.1).mpr (by decide)

/-- Claim C8: a timezone-naive datetime makes `get_session` (and therefore
`is_trading_hours`) fail with TimezoneRequired, unconditionally, for every
time value - there is no assume-local fallback; an aware datetime is
instead converted to the market timezone (Asia/Tokyo) before the windows
are tested; an absent argument substitutes the current instant in the
market timezone. -/
theorem getSession_timezone_policy :
    (∀ (timeUs nowTokyoUs : Nat),
      getSession (some ⟨timeUs, none⟩) nowTokyoUs = .error .timezoneRequired ∧
      isTradingHours (some ⟨timeUs, none⟩) nowTokyoUs = .error .timezoneRequired) ∧
    (∀ (timeUs : Nat) (off : Int) (nowTokyoUs : Nat),
      getSession (some ⟨timeUs, some off⟩) nowTokyoUs =
        .ok (sessionOf (toTokyoTimeOfDayUs timeUs off))) ∧
    (∀ nowTokyoUs : Nat, getSession none nowTokyoUs = .ok (sessionOf nowTokyoUs)) := by
  exact ⟨fun timeUs nowTokyoUs => ⟨rfl, rfl⟩,
    fun timeUs off nowTokyoUs => getSession_some_eq timeUs off nowTokyoUs,
    fun nowTokyoUs => getSession_none_eq nowTokyoUs⟩

/-- Witness for C8: the naive rejection at a concrete daytime value. -/
theorem getSession_timezone_policy_witness :
    getSession (some ⟨hmUs 10 0, none⟩) 0 = .error .timezoneRequired ∧
    isTradingHours (some ⟨hmUs 10 0, none⟩) 0 = .error .timezoneRequired :=
  getSession_timezone_policy.1 (hmUs 10 0) 0

/-- Claim C9: constructing cache metadata succeeds exactly when
`fetched_at < expires_at`, `record_count >= 0` and `schema_version >= 1`
all hold (on timezone-aware timestamps, which the `AwareDatetime` field
type enforces); in particular `expires_at <= fetched_at` is rejected with
a validation error at construction time and is never silently accepted. -/
theorem cacheMetadata_validation (dt : DataType) (url : PyStr)
    (fetched expires sv rc : Int) :
    ((∃ md, mkCacheMetadata dt url fetched expires sv rc = .ok md) ↔
      (fetched < expires ∧ 0 ≤ rc ∧ 1 ≤ sv)) ∧
    (expires ≤ fetched →
      mkCacheMetadata dt url fetched expires sv rc = .error .validationError) ∧
    (mkCacheMetadata dt url fetched expires sv rc = .ok ⟨dt, url, fetched, expires, sv, rc⟩ ∨
      mkCacheMetadata dt url fetched expires sv rc = .error .validationError) := by
  unfold mkCacheMetadata
  by_cases h1 : expires ≤ fetched
  · rw [if_pos h1]
    refine ⟨?_, fun _ => rfl, Or.inr rfl⟩
    constructor
    · intro hmd
      obtain ⟨md, hmd⟩ := hmd
      exact absurd hmd (by simp)
    · intro hc
      exfalso
      omega
  · rw [if_neg h1]
    by_cases h2 : rc < 0
    · rw [if_pos h2]
      refine ⟨?_, fun hc => absurd hc h1, Or.inr rfl⟩
      constructor
      · intro hmd
        obtain ⟨md, hmd⟩ := hmd
        exact absurd hmd (by simp)
      · intro hc
        exfalso
        omega
    · rw [if_neg h2]
      by_cases h3 : sv < 1
      · rw [if_pos h3]
        refine ⟨?_, fun hc => absurd hc h1, Or.inr rfl⟩
        constructor
        · intro hmd
          obtain ⟨md, hmd⟩ := hmd
          exact absurd hmd (by simp)
        · intro hc
          exfalso
          omega
      · rw [if_neg h3]
        refine ⟨?_, fun hc => absurd hc h1, Or.inl rfl⟩
        constructor
        · intro _
          omega
        · intro _
          exact ⟨_, rfl⟩

/-- Witness for C9: a concrete valid construction and a concrete rejected
one, both obtained from the claim theorem. -/
theorem cacheMetadata_validation_witness :
    (∃ md, mkCacheMetadata .sqDates [] 0 1 1 0 = .ok md) ∧
    mkCacheMetadata .sqDates [] 5 5 1 0 = .error .validationError :=
  ⟨(cacheMetadata_validation .sqDates [] 0 1 1 0).1.mpr (by omega),
    (cacheMetadata_validation .sqDates [] 5 5 1 0).2.1 (by omega)⟩

end MarketSched

namespace MarketSched

/-! ### Calendar lemmas and claims C1, C3, C7 -/

theorem readHolidays_eq (s : Store) (records : List HolidayTradingRecord)
    (hs : s.holidayTable = some records) : readHolidays s = .ok records := by
  unfold readHolidays
  rw [hs]

theorem queryIsHolidayTradingDay_eq (s : Store) (records : List HolidayTradingRecord)
    (hs : s.holidayTable = some records) (d : Int) :
    queryIsHolidayTradingDay s d =
      .ok (records.any (fun r => r.date == d && r.is_trading)) := by
  unfold queryIsHolidayTradingDay
  rw [readHolidays_eq s records hs]
  rfl

theorem queryGetNonTradingHolidays_eq (s : Store) (records : List HolidayTradingRecord)
    (hs : s.holidayTable = some records) :
    queryGetNonTradingHolidays s =
      .ok ((records.filter (fun r => !r.is_trading)).map (fun r => r.date)) := by
  unfold queryGetNonTradingHolidays
  rw [readHolidays_eq s records hs]
  rfl

theorem calIsBusinessDay_eq_pure (s : Store) (records : List HolidayTradingRecord)
    (hs : s.holidayTable = some records) (d : Int) :
    calIsBusinessDay s d = .ok (bdPure records d) := by
  unfold calIsBusinessDay bdPure
  by_cases hw : isWeekend d = true
  · simp [hw]
  · rw [queryIsHolidayTradingDay_eq s records hs d]
    cases hany : records.any (fun r => r.date == d && r.is_trading) with
    | true => simp [hw, hany]
    | false => simp [hw, hany, queryGetNonTradingHolidays_eq s records hs]

/-- Claim C1: the business-day predicate returns false on Saturday and
Sunday regardless of any holiday data; on a weekday it returns true when a
holiday-exception record with trading enabled exists for the date,
otherwise false when the date is among the non-trading holiday dates,
otherwise true. -/
theorem isBusinessDay_rules (s : Store) (records : List HolidayTradingRecord) (d : Int)
    (hs : s.holidayTable = some records) :
    ((weekday d = 5 ∨ weekday d = 6) →
      ∀ s2 : Store, calIsBusinessDay s2 d = .ok false) ∧
    (¬(weekday d = 5 ∨ weekday d = 6) →
      ((∃ r ∈ records, r.date = d ∧ r.is_trading = true) →
        calIsBusinessDay s d = .ok true) ∧
      ((¬∃ r ∈ records, r.date = d ∧ r.is_trading = true) →
        (∃ r ∈ records, r.date = d ∧ r.is_trading = false) →
        calIsBusinessDay s d = .ok false) ∧
      ((¬∃ r ∈ records, r.date = d ∧ r.is_trading = true) →
        (¬∃ r ∈ records, r.date = d ∧ r.is_trading = false) →
        calIsBusinessDay s d = .ok true)) := by
  constructor
  · intro hwk s2
    have hw : isWeekend d = true := by
      unfold isWeekend
      have : weekday d ≥ 5 := by omega
      exact decide_eq_true this
    unfold calIsBusinessDay
    rw [if_pos hw]
  · intro hwk
    have hwb : (0 : Int) ≤ weekday d ∧ weekday d < 7 := by
      unfold weekday
      omega
    have hw : isWeekend d = false := by
      unfold isWeekend
      apply decide_eq_false
      omega
    have hpure := calIsBusinessDay_eq_pure s records hs d
    have hanyIff : (records.any (fun r => r.date == d && r.is_trading)) = true ↔
        (∃ r ∈ records, r.date = d ∧ r.is_trading = true) := by
      rw [List.any_eq_true]
      constructor
      · rintro ⟨r, hr, hp⟩
        simp only [Bool.and_eq_true, beq_iff_eq] at hp
        exact ⟨r, hr, hp.1, hp.2⟩
      · rintro ⟨r, hr, h1, h2⟩
        exact ⟨r, hr, by simp [h1, h2]⟩
    have hmemIff : (((records.filter (fun r => !r.is_trading)).map
          (fun r => r.date)).contains d) = true ↔
        (∃ r ∈ records, r.date = d ∧ r.is_trading = false) := by
      rw [List.elem_iff, List.mem_map]
      constructor
      · rintro ⟨r, hr, hdd⟩
        rw [List.mem_filter] at hr
        exact ⟨r, hr.1, hdd, by simpa using hr.2⟩
      · rintro ⟨r, hr, h1, h2⟩
        exact ⟨r, List.mem_filter.mpr ⟨hr, by simp [h2]⟩, h1⟩
    refine ⟨?_, ?_, ?_⟩
    · intro hex
      rw [hpure]
      unfold bdPure
      rw [if_neg (by simp [hw]), if_pos (hanyIff.mpr hex)]
    · intro hnex hmem
      rw [hpure]
      unfold bdPure
      rw [if_neg (by simp [hw]),
        if_neg (fun hc => hnex (hanyIff.mp hc))]
      rw [hmemIff.mpr hmem]
      rfl
    · intro hnex hnmem
      rw [hpure]
      unfold bdPure
      rw [if_neg (by simp [hw]),
        if_neg (fun hc => hnex (hanyIff.mp hc))]
      have : (((records.filter (fun r => !r.is_trading)).map
          (fun r => r.date)).contains d) = false := by
        cases hc : (((records.filter (fun r => !r.is_trading)).map
            (fun r => r.date)).contains d) with
        | true => exact absurd (hmemIff.mp hc) hnmem
        | false => rfl
      rw [this]
      rfl

/-- Witness for C1: ordinal 6 is a Saturday (false everywhere); ordinal 8
is a Monday with a trading-enabled exception record (true). -/
theorem isBusinessDay_rules_witness :
    ((Store.mk none (some [⟨8, [], true, true⟩])).holidayTable =
      some [⟨8, [], true, true⟩]) ∧
    calIsBusinessDay ⟨none, none⟩ 6 = .ok false ∧
    calIsBusinessDay ⟨none, some [⟨8, [], true, true⟩]⟩ 8 = .ok true := by
  refine ⟨rfl, ?_, ?_⟩
  · exact (isBusinessDay_rules ⟨none, some []⟩ [] 6 rfl).1 (by decide) ⟨none, none⟩
  · exact ((isBusinessDay_rules ⟨none, some [⟨8, [], true, true⟩]⟩
      [⟨8, [], true, true⟩] 8 rfl).2 (by decide)).1 ⟨⟨8, [], true, true⟩, by simp, rfl, rfl⟩

end MarketSched

namespace MarketSched

theorem nextAux_ok_spec (s : Store) (records : List HolidayTradingRecord)
    (hs : s.holidayTable = some records) :
    ∀ (fuel : Nat) (c r : Int), nextBusinessDayAux s fuel c = .ok r →
      c ≤ r ∧ r < c + fuel ∧ bdPure records r = true ∧
        ∀ x : Int, c ≤ x → x < r → bdPure records x = false := by
  intro fuel
  induction fuel with
  | zero =>
      intro c r h
      exact absurd h (by simp [nextBusinessDayAux])
  | succ fuel ih =>
      intro c r h
      rw [show nextBusinessDayAux s (fuel + 1) c
          = (match calIsBusinessDay s c with
            | .error e => .error e
            | .ok true => .ok c
            | .ok false => nextBusinessDayAux s fuel (c + 1)) from rfl,
        calIsBusinessDay_eq_pure s records hs c] at h
      cases hb : bdPure records c with
      | true =>
          rw [hb] at h
          simp only [Except.ok.injEq] at h
          subst h
          exact ⟨le_refl _, by omega, hb, fun x hx1 hx2 => absurd hx1 (by omega)⟩
      | false =>
          rw [hb] at h
          obtain ⟨h1, h2, h3, h4⟩ := ih (c + 1) r h
          refine ⟨by omega, by omega, h3, fun x hx1 hx2 => ?_⟩
          by_cases hxc : x = c
          · rw [hxc]
            exact hb
          · exact h4 x (by omega) hx2

theorem nextAux_error_iff (s : Store) (records : List HolidayTradingRecord)
    (hs : s.holidayTable = some records) :
    ∀ (fuel : Nat) (c : Int), nextBusinessDayAux s fuel c = .error .searchExhausted ↔
      ∀ x : Int, c ≤ x → x < c + fuel → bdPure records x = false := by
  intro fuel
  induction fuel with
  | zero =>
      intro c
      simp only [nextBusinessDayAux]
      constructor
      · intro _ x hx1 hx2
        exact absurd hx1 (by omega)
      · intro _
        trivial
  | succ fuel ih =>
      intro c
      rw [show nextBusinessDayAux s (fuel + 1) c
          = (match calIsBusinessDay s c with
            | .error e => .error e
            | .ok true => .ok c
            | .ok false => nextBusinessDayAux s fuel (c + 1)) from rfl,
        calIsBusinessDay_eq_pure s records hs c]
      cases hb : bdPure records c with
      | true =>
          constructor
          · intro h
            exact absurd h (by simp)
          · intro h
            exact absurd (h c (le_refl c) (by omega)) (by simp [hb])
      | false =>
          rw [ih (c + 1)]
          constructor
          · intro h x hx1 hx2
            by_cases hxc : x = c
            · rw [hxc]
              exact hb
            · exact h x (by omega) (by omega)
          · intro h x hx1 hx2
            exact h x (by omega) (by omega)

theorem prevAux_ok_spec (s : Store) (records : List HolidayTradingRecord)
    (hs : s.holidayTable = some records) :
    ∀ (fuel : Nat) (c r : Int), prevBusinessDayAux s fuel c = .ok r →
      r ≤ c ∧ c - fuel < r ∧ bdPure records r = true ∧
        ∀ x : Int, r < x → x ≤ c → bdPure records x = false := by
  intro fuel
  induction fuel with
  | zero =>
      intro c r h
      exact absurd h (by simp [prevBusinessDayAux])
  | succ fuel ih =>
      intro c r h
      rw [show prevBusinessDayAux s (fuel + 1) c
          = (match calIsBusinessDay s c with
            | .error e => .error e
            | .ok true => .ok c
            | .ok false => prevBusinessDayAux s fuel (c - 1)) from rfl,
        calIsBusinessDay_eq_pure s records hs c] at h
      cases hb : bdPure records c with
      | true =>
          rw [hb] at h
          simp only [Except.ok.injEq] at h
          subst h
          exact ⟨le_refl _, by omega, hb, fun x hx1 hx2 => absurd hx1 (by omega)⟩
      | false =>
          rw [hb] at h
          obtain ⟨h1, h2, h3, h4⟩ := ih (c - 1) r h
          refine ⟨by omega, by omega, h3, fun x hx1 hx2 => ?_⟩
          by_cases hxc : x = c
          · rw [hxc]
            exact hb
          · exact h4 x (by omega) (by omega)

theorem prevAux_error_iff (s : Store) (records : List HolidayTradingRecord)
    (hs : s.holidayTable = some records) :
    ∀ (fuel : Nat) (c : Int), prevBusinessDayAux s fuel c = .error .searchExhausted ↔
      ∀ x : Int, c - fuel < x → x ≤ c → bdPure records x = false := by
  intro fuel
  induction fuel with
  | zero =>
      intro c
      simp only [prevBusinessDayAux]
      constructor
      · intro _ x hx1 hx2
        exact absurd hx1 (by omega)
      · intro _
        trivial
  | succ fuel ih =>
      intro c
      rw [show prevBusinessDayAux s (fuel + 1) c
          = (match calIsBusinessDay s c with
            | .error e => .error e
            | .ok true => .ok c
            | .ok false => prevBusinessDayAux s fuel (c - 1)) from rfl,
        calIsBusinessDay_eq_pure s records hs c]
      cases hb : bdPure records c with
      | true =>
          constructor
          · intro h
            exact absurd h (by simp)
          · intro h
            exact absurd (h c (by omega) (le_refl c)) (by simp [hb])
      | false =>
          rw [ih (c - 1)]
          constructor
          · intro h x hx1 hx2
            by_cases hxc : x = c
            · rw [hxc]
              exact hb
            · exact h x (by omega) (by omega)
          · intro h x hx1 hx2
            exact h x (by omega) (by omega)

end MarketSched

namespace MarketSched

/-- Claim C3: `next_business_day(d)` and `previous_business_day(d)` never
return d itself; each returns the first date strictly after (respectively
strictly before) d, at most 365 days away, that satisfies the business-day
predicate, and each fails with the search-exhausted error (the RuntimeError
the spec names SearchExhausted) exactly when none of those 365 consecutive
candidates is a business day. -/
theorem businessDay_search_spec (s : Store) (records : List HolidayTradingRecord)
    (d : Int) (hs : s.holidayTable = some records) :
    (∀ r : Int, calNextBusinessDay s d = .ok r →
      r ≠ d ∧ d < r ∧ r ≤ d + 365 ∧ calIsBusinessDay s r = .ok true ∧
        ∀ x : Int, d < x → x < r → calIsBusinessDay s x = .ok false) ∧
    (calNextBusinessDay s d = .error .searchExhausted ↔
      ∀ x : Int, d < x → x ≤ d + 365 → calIsBusinessDay s x = .ok false) ∧
    (∀ r : Int, calPreviousBusinessDay s d = .ok r →
      r ≠ d ∧ r < d ∧ d - 365 ≤ r ∧ calIsBusinessDay s r = .ok true ∧
        ∀ x : Int, r < x → x < d → calIsBusinessDay s x = .ok false) ∧
    (calPreviousBusinessDay s d = .error .searchExhausted ↔
      ∀ x : Int, d - 365 ≤ x → x < d → calIsBusinessDay s x = .ok false) := by
  have hbd : ∀ (x : Int) (b : Bool), calIsBusinessDay s x = .ok b ↔ bdPure records x = b := by
    intro x b
    rw [calIsBusinessDay_eq_pure s records hs x]
    simp
  refine ⟨?_, ?_, ?_, ?_⟩
  · intro r h
    obtain ⟨h1, h2, h3, h4⟩ := nextAux_ok_spec s records hs MAX_SEARCH_DAYS (d + 1) r h
    have hm : (MAX_SEARCH_DAYS : Int) = 365 := rfl
    refine ⟨by omega, by omega, by omega, (hbd r true).mpr h3, fun x hx1 hx2 => ?_⟩
    exact (hbd x false).mpr (h4 x (by omega) hx2)
  · unfold calNextBusinessDay
    rw [nextAux_error_iff s records hs MAX_SEARCH_DAYS (d + 1)]
    have hm : (MAX_SEARCH_DAYS : Int) = 365 := rfl
    constructor
    · intro h x hx1 hx2
      exact (hbd x false).mpr (h x (by omega) (by omega))
    · intro h x hx1 hx2
      exact (hbd x false).mp (h x (by omega) (by omega))
  · intro r h
    obtain ⟨h1, h2, h3, h4⟩ := prevAux_ok_spec s records hs MAX_SEARCH_DAYS (d - 1) r h
    have hm : (MAX_SEARCH_DAYS : Int) = 365 := rfl
    refine ⟨by omega, by omega, by omega, (hbd r true).mpr h3, fun x hx1 hx2 => ?_⟩
    exact (hbd x false).mpr (h4 x (by omega) (by omega))
  · unfold calPreviousBusinessDay
    rw [prevAux_error_iff s records hs MAX_SEARCH_DAYS (d - 1)]
    have hm : (MAX_SEARCH_DAYS : Int) = 365 := rfl
    constructor
    · intro h x hx1 hx2
      exact (hbd x false).mpr (h x (by omega) (by omega))
    · intro h x hx1 hx2
      exact (hbd x false).mp (h x (by omega) (by omega))

/-- Witness for C3: with an empty holiday table, the next business day
after Friday ordinal 5 is Monday ordinal 8, which the claim theorem then
shows to be the first business day strictly after 5. -/
theorem businessDay_search_spec_witness :
    calNextBusinessDay ⟨none, some []⟩ 5 = .ok 8 ∧
    ((8 : Int) ≠ 5 ∧ (5 : Int) < 8 ∧ (8 : Int) ≤ 5 + 365 ∧
      calIsBusinessDay ⟨none, some []⟩ 8 = .ok true ∧
      ∀ x : Int, 5 < x → x < 8 → calIsBusinessDay ⟨none, some []⟩ x = .ok false) :=
  ⟨by decide, (businessDay_search_spec ⟨none, some []⟩ [] 5 rfl).1 8 (by decide)⟩

end MarketSched

namespace MarketSched

theorem mem_rangeList : ∀ (n : Nat) (c x : Int), x ∈ rangeList c n ↔ c ≤ x ∧ x < c + n := by
  intro n
  induction n with
  | zero =>
      intro c x
      simp only [rangeList, List.not_mem_nil, false_iff]
      omega
  | succ n ih =>
      intro c x
      simp only [rangeList, List.mem_cons, ih (c + 1)]
      omega

theorem pairwise_rangeList : ∀ (n : Nat) (c : Int), (rangeList c n).Pairwise (· < ·) := by
  intro n
  induction n with
  | zero =>
      intro c
      exact List.Pairwise.nil
  | succ n ih =>
      intro c
      refine List.pairwise_cons.mpr ⟨fun x hx => ?_, ih (c + 1)⟩
      have := (mem_rangeList n (c + 1) x).mp hx
      omega

theorem businessDaysAux_eq (s : Store) (records : List HolidayTradingRecord)
    (hs : s.holidayTable = some records) :
    ∀ (n : Nat) (c : Int), businessDaysAux s n c =
      .ok ((rangeList c n).filter (fun x => bdPure records x)) := by
  intro n
  induction n with
  | zero =>
      intro c
      rfl
  | succ n ih =>
      intro c
      show (do
        let b ← calIsBusinessDay s c
        let rest ← businessDaysAux s n (c + 1)
        (.ok (if b then c :: rest else rest) : Except PyErr (List Int))) = _
      rw [calIsBusinessDay_eq_pure s records hs c, ih (c + 1)]
      show Except.ok (if bdPure records c then _ else _) = _
      cases hb : bdPure records c <;>
        simp [hb, rangeList, List.filter_cons]

/-- Claim C7: `get_business_days(start, end)` is the empty sequence, not an
error, when start > end; otherwise it is the ascending sequence of exactly
the dates of the inclusive range that satisfy the business-day predicate;
and `count_business_days` always equals the length of
`get_business_days`. -/
theorem businessDays_range_spec (s : Store) (records : List HolidayTradingRecord)
    (start stop : Int) (hs : s.holidayTable = some records) :
    (start > stop → calGetBusinessDays s start stop = .ok []) ∧
    (∃ l : List Int, calGetBusinessDays s start stop = .ok l ∧
      (∀ x : Int, x ∈ l ↔ start ≤ x ∧ x ≤ stop ∧ calIsBusinessDay s x = .ok true) ∧
      l.Pairwise (· < ·) ∧
      calCountBusinessDays s start stop = .ok l.length) ∧
    (∀ (s2 : Store) (a b : Int),
      calCountBusinessDays s2 a b = (calGetBusinessDays s2 a b).map List.length) := by
  refine ⟨?_, ?_, fun s2 a b => rfl⟩
  · intro hgt
    unfold calGetBusinessDays
    rw [if_pos hgt]
  · by_cases hgt : start > stop
    · refine ⟨[], by unfold calGetBusinessDays; rw [if_pos hgt], ?_,
        List.Pairwise.nil, by unfold calCountBusinessDays calGetBusinessDays; rw [if_pos hgt]; rfl⟩
      intro x
      simp only [List.not_mem_nil, false_iff]
      rintro ⟨hx1, hx2, _⟩
      omega
    · have hget : calGetBusinessDays s start stop =
          .ok ((rangeList start (stop - start + 1).toNat).filter
            (fun x => bdPure records x)) := by
        unfold calGetBusinessDays
        rw [if_neg hgt]
        exact businessDaysAux_eq s records hs _ start
      refine ⟨_, hget, ?_, List.Pairwise.filter _ (pairwise_rangeList _ start), ?_⟩
      · intro x
        rw [List.mem_filter, mem_rangeList]
        have hb : calIsBusinessDay s x = .ok true ↔ bdPure records x = true := by
          rw [calIsBusinessDay_eq_pure s records hs x]
          simp
        rw [hb]
        constructor
        · rintro ⟨⟨ha, hb2⟩, hc⟩
          exact ⟨ha, by omega, hc⟩
        · rintro ⟨ha, hb2, hc⟩
          exact ⟨⟨ha, by omega⟩, hc⟩
      · unfold calCountBusinessDays
        rw [hget]
        rfl

/-- Witness for C7: with an empty holiday table, the business days from
Thursday ordinal 4 to Monday ordinal 8 are [4, 5, 8] with count 3, and an
inverted range gives the empty list. -/
theorem businessDays_range_spec_witness :
    calGetBusinessDays ⟨none, some []⟩ 4 8 = .ok [4, 5, 8] ∧
    calCountBusinessDays ⟨none, some []⟩ 4 8 = .ok 3 ∧
    calGetBusinessDays ⟨none, some []⟩ 9 8 = .ok [] :=
  ⟨by decide, by decide,
    (businessDays_range_spec ⟨none, some []⟩ [] 9 8 rfl).1 (by decide)⟩

end MarketSched

namespace MarketSched

/-! ### Settlement-date lemmas and claims C4, C5 -/

theorem readSqDates_eq (s : Store) (records : List SQDateRecord)
    (hs : s.sqTable = some records) : readSqDates s = .ok records := by
  unfold readSqDates
  rw [hs]

theorem mkContractMonth_valid (y m : Int) (hy : 0 ≤ y) (hm1 : 1 ≤ m) (hm2 : m ≤ 12) :
    mkContractMonth y m = .ok ⟨y, m⟩ := by
  unfold mkContractMonth
  rw [if_neg (by omega), if_pos ⟨hm1, hm2⟩]

theorem queryGetSqDate_eq (s : Store) (records : List SQDateRecord)
    (hs : s.sqTable = some records) (y m : Int) (hy : 0 ≤ y) (hm1 : 1 ≤ m) (hm2 : m ≤ 12) :
    queryGetSqDate s y m =
      .ok ((records.find? (fun r => r.contract_month == toYyyymmChars ⟨y, m⟩)).map
        (fun r => r.sq_date)) := by
  unfold queryGetSqDate
  rw [readSqDates_eq s records hs, mkContractMonth_valid y m hy hm1 hm2]
  rfl

/-- Claim C4: `is_sq_date(d)` looks up `get_sq_date(d.year, d.month)` and
returns whether the result equals d; when the settlement data has no
record for that (year, month), `get_sq_date` fails with
SQDataNotFoundError(year, month) and `is_sq_date` propagates that failure,
never returning false in that case. -/
theorem isSqDate_spec (s : Store) (records : List SQDateRecord) (d : Date)
    (hs : s.sqTable = some records)
    (hy : 0 ≤ d.year) (hm1 : 1 ≤ d.month) (hm2 : d.month ≤ 12) :
    ((∀ r ∈ records, r.contract_month ≠ toYyyymmChars ⟨d.year, d.month⟩) →
      calGetSqDate s d.year d.month = .error (.sqDataNotFound d.year d.month) ∧
      calIsSqDate s d = .error (.sqDataNotFound d.year d.month) ∧
      ∀ b : Bool, calIsSqDate s d ≠ .ok b) ∧
    (∀ sq : Date, calGetSqDate s d.year d.month = .ok sq →
      calIsSqDate s d = .ok (decide (sq = d))) := by
  have hq := queryGetSqDate_eq s records hs d.year d.month hy hm1 hm2
  constructor
  · intro hnone
    have hfind : records.find?
        (fun r => r.contract_month == toYyyymmChars ⟨d.year, d.month⟩) = none := by
      rw [List.find?_eq_none]
      intro r hr
      simpa using hnone r hr
    have hget : calGetSqDate s d.year d.month =
        .error (.sqDataNotFound d.year d.month) := by
      unfold calGetSqDate
      rw [hq, hfind]
      rfl
    refine ⟨hget, ?_, ?_⟩
    · unfold calIsSqDate
      rw [hget]
    · intro b hb
      unfold calIsSqDate at hb
      rw [hget] at hb
      exact absurd hb (by simp)
  · intro sq hsq
    unfold calIsSqDate
    rw [hsq]

/-- Witness for C4: in a store whose only record is contract month
2026-03 with SQ date 2026-03-13, that date tests positive and April has no
record, so the not-found error propagates through `is_sq_date`. -/
theorem isSqDate_spec_witness :
    calIsSqDate c4Store ⟨2026, 3, 13⟩ =
      .ok (decide ((⟨2026, 3, 13⟩ : Date) = ⟨2026, 3, 13⟩)) ∧
    calIsSqDate c4Store ⟨2026, 4, 10⟩ = .error (.sqDataNotFound 2026 4) :=
  ⟨(isSqDate_spec c4Store c4Records ⟨2026, 3, 13⟩ rfl (by decide) (by decide)
      (by decide)).2 ⟨2026, 3, 13⟩ (by decide),
    ((isSqDate_spec c4Store c4Records ⟨2026, 4, 10⟩ rfl (by decide) (by decide)
      (by decide)).1 (by decide)).2.1⟩

/-- Claim C5 evaluation: with the cache absent for the requested kind,
every Query Layer operation evaluates `CacheNotAvailableError(message)`
whose initializer accepts no message, so each fails with TypeError - not
with the CacheNotAvailableError that the claim, the docstrings and the
unit tests (tests/unit/test_jpx_data_query.py) promise. -/
theorem queryLayer_absent_cache_raises_typeError :
    queryGetSqDate ⟨none, none⟩ 2026 1 = .error .typeError ∧
    queryGetSqDatesForYear ⟨none, none⟩ 2026 = .error .typeError ∧
    queryIsHolidayTradingDay ⟨none, none⟩ 0 = .error .typeError ∧
    queryGetNonTradingHolidays ⟨none, none⟩ = .error .typeError ∧
    queryGetSqDate ⟨none, none⟩ 2026 1 ≠ .error .cacheNotAvailable := by
  refine ⟨rfl, rfl, rfl, rfl, by decide⟩

end MarketSched

namespace MarketSched

/-! ### Year-prefix lemmas and claim C6 -/

theorem digitsToNat_four_val (n : Nat) (h1 : 1000 ≤ n) (h2 : n ≤ 9999) :
    digitsToNat [digitChar (n / 1000), digitChar (n / 100 % 10),
      digitChar (n / 10 % 10), digitChar (n % 10)] = n := by
  rw [digitsToNat_four _ _ _ _ (by omega) (by omega) (by omega) (by omega)]
  omega

theorem cmMonthVal_toYyyymm (y m : Int) (hy1 : 1000 ≤ y) (hy2 : y ≤ 9999)
    (hm1 : 1 ≤ m) (hm2 : m ≤ 12) :
    cmMonthVal (toYyyymmChars ⟨y, m⟩) = m.toNat := by
  obtain ⟨e, f, hef⟩ := List.length_eq_two.mp (pad2Chars_length m hm1 hm2)
  unfold cmMonthVal
  rw [show toYyyymmChars ⟨y, m⟩ = intStrChars y ++ pad2Chars m from rfl,
    intStrChars_four y hy1 hy2, hef]
  show digitsToNat [e, f] = m.toNat
  rw [← hef]
  exact pad2Chars_val m hm1 hm2

theorem intStr_isPrefixOf_toYyyymm_iff (bigY y m : Int)
    (hY1 : 1000 ≤ bigY) (hY2 : bigY ≤ 9999) (hy1 : 1000 ≤ y) (hy2 : y ≤ 9999)
    (hm1 : 1 ≤ m) (hm2 : m ≤ 12) :
    ((intStrChars bigY).isPrefixOf (toYyyymmChars ⟨y, m⟩)) = true ↔ bigY = y := by
  obtain ⟨e, f, hef⟩ := List.length_eq_two.mp (pad2Chars_length m hm1 hm2)
  rw [show toYyyymmChars ⟨y, m⟩ = intStrChars y ++ pad2Chars m from rfl,
    intStrChars_four bigY hY1 hY2, intStrChars_four y hy1 hy2, hef]
  constructor
  · intro h
    simp only [List.cons_append, List.nil_append, List.isPrefixOf, Bool.and_eq_true,
      beq_iff_eq] at h
    obtain ⟨h1, h2, h3, h4, -⟩ := h
    have hv : digitsToNat [digitChar (bigY.toNat / 1000), digitChar (bigY.toNat / 100 % 10),
        digitChar (bigY.toNat / 10 % 10), digitChar (bigY.toNat % 10)]
        = digitsToNat [digitChar (y.toNat / 1000), digitChar (y.toNat / 100 % 10),
        digitChar (y.toNat / 10 % 10), digitChar (y.toNat % 10)] := by
      rw [h1, h2, h3, h4]
    rw [digitsToNat_four_val bigY.toNat (by omega) (by omega),
      digitsToNat_four_val y.toNat (by omega) (by omega)] at hv
    omega
  · intro h
    subst h
    simp [List.isPrefixOf]

theorem toYyyymm_inj (y m y2 m2 : Int)
    (hy1 : 1000 ≤ y) (hy2 : y ≤ 9999) (hm1 : 1 ≤ m) (hm2 : m ≤ 12)
    (hy21 : 1000 ≤ y2) (hy22 : y2 ≤ 9999) (hm21 : 1 ≤ m2) (hm22 : m2 ≤ 12)
    (h : toYyyymmChars ⟨y, m⟩ = toYyyymmChars ⟨y2, m2⟩) : y = y2 ∧ m = m2 := by
  have hmv : cmMonthVal (toYyyymmChars ⟨y, m⟩) = cmMonthVal (toYyyymmChars ⟨y2, m2⟩) := by
    rw [h]
  rw [cmMonthVal_toYyyymm y m hy1 hy2 hm1 hm2,
    cmMonthVal_toYyyymm y2 m2 hy21 hy22 hm21 hm22] at hmv
  have hself : (intStrChars y).isPrefixOf (toYyyymmChars ⟨y, m⟩) = true :=
    (intStr_isPrefixOf_toYyyymm_iff y y m hy1 hy2 hy1 hy2 hm1 hm2).mpr rfl
  rw [h] at hself
  exact ⟨(intStr_isPrefixOf_toYyyymm_iff y y2 m2 hy1 hy2 hy21 hy22 hm21 hm22).mp hself,
    by omega⟩

theorem queryGetSqDatesForYear_eq (s : Store) (records : List SQDateRecord)
    (hs : s.sqTable = some records) (y : Int) :
    queryGetSqDatesForYear s y =
      .ok (pySortDates ((records.filter
        (fun r => (intStrChars y).isPrefixOf r.contract_month)).map
          (fun r => r.sq_date))) := by
  unfold queryGetSqDatesForYear
  rw [readSqDates_eq s records hs]
  rfl

theorem dateLtb_of_leb_ne {a b : Date} (hle : dateLeb a b = true) (hne : a ≠ b) :
    dateLtb a b = true := by
  cases a with
  | mk ay am ad =>
  cases b with
  | mk by2 bm bd =>
  simp only [dateLeb, dateLtb, decide_eq_true_eq, ne_eq, Date.mk.injEq] at *
  omega

theorem mem_month12List (x : Nat) (h1 : 1 ≤ x) (h2 : x ≤ 12) : x ∈ month12List := by
  interval_cases x <;> decide

end MarketSched

namespace MarketSched

/-- Counterexample to claim C6 as stated: `get_sq_dates_for_year` filters
by string prefix against `str(year)`, so for the three-digit year 202 a
well-formed table with one record per contract month of 2026 plus one of
2027-01 matches all thirteen records - the result has 13 entries, more
than 12, and the engine does not fail. -/
theorem getSqDatesForYear_year202_counterexample :
    (calGetSqDatesForYear c6Store 202).map List.length = .ok 13 := by
  decide

/-- Claim C6 amended: restricted to four-digit query years and settlement
data whose contract-month strings are YYYYMM encodings of four-digit-year
months, with no duplicate contract month and no duplicate SQ date, the
Calendar Engine's `get_sq_dates_for_year` fails with
SQDataNotFoundError(year, 1) when no record carries the requested year,
and otherwise returns a strictly ascending permutation of the SQ dates of
exactly the matching records - one entry per contract month of that year
that has data, hence never more than 12 entries. -/
theorem getSqDatesForYear_spec_amended (s : Store) (records : List SQDateRecord)
    (y : Int) (hs : s.sqTable = some records) (hy1 : 1000 ≤ y) (hy2 : y ≤ 9999)
    (hwf : ∀ r ∈ records, ∃ yr mr : Int, (1000 ≤ yr ∧ yr ≤ 9999) ∧
      (1 ≤ mr ∧ mr ≤ 12) ∧ r.contract_month = toYyyymmChars ⟨yr, mr⟩)
    (hcm : (records.map (fun r => r.contract_month)).Nodup)
    (hsq : (records.map (fun r => r.sq_date)).Nodup) :
    (records.filter (fun r => (intStrChars y).isPrefixOf r.contract_month) = [] →
      calGetSqDatesForYear s y = .error (.sqDataNotFound y 1)) ∧
    (∀ r ∈ records, ((intStrChars y).isPrefixOf r.contract_month) = true ↔
      ∃ mr : Int, (1 ≤ mr ∧ mr ≤ 12) ∧ r.contract_month = toYyyymmChars ⟨y, mr⟩) ∧
    (records.filter (fun r => (intStrChars y).isPrefixOf r.contract_month) ≠ [] →
      ∃ l : List Date, calGetSqDatesForYear s y = .ok l ∧
        l.Pairwise (fun a b => dateLtb a b = true) ∧
        l.Perm ((records.filter
          (fun r => (intStrChars y).isPrefixOf r.contract_month)).map
            (fun r => r.sq_date)) ∧
        ((records.filter (fun r => (intStrChars y).isPrefixOf r.contract_month)).map
          (fun r => cmMonthVal r.contract_month)).Nodup ∧
        l.length ≤ 12) := by
  have hq := queryGetSqDatesForYear_eq s records hs y
  have hiff : ∀ r ∈ records, ((intStrChars y).isPrefixOf r.contract_month) = true ↔
      ∃ mr : Int, (1 ≤ mr ∧ mr ≤ 12) ∧ r.contract_month = toYyyymmChars ⟨y, mr⟩ := by
    intro r hr
    obtain ⟨yr, mr, hyr, hmr, henc⟩ := hwf r hr
    rw [henc]
    constructor
    · intro hpre
      have hyy : y = yr :=
        (intStr_isPrefixOf_toYyyymm_iff y yr mr hy1 hy2 hyr.1 hyr.2 hmr.1 hmr.2).mp hpre
      exact ⟨mr, hmr, by rw [hyy]⟩
    · rintro ⟨mr2, hmr2, henc2⟩
      have hinj2 := toYyyymm_inj yr mr y mr2 hyr.1 hyr.2 hmr.1 hmr.2 hy1 hy2
        hmr2.1 hmr2.2 henc2
      exact (intStr_isPrefixOf_toYyyymm_iff y yr mr hy1 hy2 hyr.1 hyr.2
        hmr.1 hmr.2).mpr hinj2.1.symm
  refine ⟨?_, hiff, ?_⟩
  · intro hf0
    unfold calGetSqDatesForYear
    rw [hq, hf0]
    rfl
  · intro hfne
    have hperm : (pySortDates ((records.filter
        (fun r => (intStrChars y).isPrefixOf r.contract_month)).map
          (fun r => r.sq_date))).Perm
        ((records.filter (fun r => (intStrChars y).isPrefixOf r.contract_month)).map
          (fun r => r.sq_date)) := List.perm_insertionSort _ _
    have hlen : (pySortDates ((records.filter
        (fun r => (intStrChars y).isPrefixOf r.contract_month)).map
          (fun r => r.sq_date))).length
        = (records.filter
            (fun r => (intStrChars y).isPrefixOf r.contract_month)).length := by
      rw [hperm.length_eq, List.length_map]
    have hfl : 0 < (records.filter
        (fun r => (intStrChars y).isPrefixOf r.contract_month)).length :=
      List.length_pos.mpr hfne
    have hget : calGetSqDatesForYear s y = .ok (pySortDates ((records.filter
        (fun r => (intStrChars y).isPrefixOf r.contract_month)).map
          (fun r => r.sq_date))) := by
      unfold calGetSqDatesForYear
      rw [hq]
      cases hsorted : pySortDates ((records.filter
          (fun r => (intStrChars y).isPrefixOf r.contract_month)).map
            (fun r => r.sq_date)) with
      | nil =>
          exfalso
          rw [hsorted] at hlen
          simp at hlen
          omega
      | cons a as => rfl
    have hmapnodup : ((records.filter
        (fun r => (intStrChars y).isPrefixOf r.contract_month)).map
          (fun r => r.sq_date)).Nodup :=
      hsq.sublist ((List.filter_sublist records).map (fun r => r.sq_date))
    have hnod := hperm.nodup_iff.mpr hmapnodup
    have hsorted_le := List.sorted_insertionSort (fun a b => dateLeb a b = true)
      ((records.filter (fun r => (intStrChars y).isPrefixOf r.contract_month)).map
        (fun r => r.sq_date))
    have hstrict : (pySortDates ((records.filter
        (fun r => (intStrChars y).isPrefixOf r.contract_month)).map
          (fun r => r.sq_date))).Pairwise (fun a b => dateLtb a b = true) :=
      (hsorted_le.and hnod).imp (fun hab => dateLtb_of_leb_ne hab.1 hab.2)
    have hrecnodup : records.Nodup := List.Nodup.of_map _ hcm
    have hfilnodup : (records.filter
        (fun r => (intStrChars y).isPrefixOf r.contract_month)).Nodup :=
      hrecnodup.filter _
    have hinj := List.inj_on_of_nodup_map hcm
    have hmonnodup : ((records.filter
        (fun r => (intStrChars y).isPrefixOf r.contract_month)).map
          (fun r => cmMonthVal r.contract_month)).Nodup := by
      refine List.Nodup.map_on ?_ hfilnodup
      intro r1 hr1 r2 hr2 hmeq
      have hr1r : r1 ∈ records := List.mem_of_mem_filter hr1
      have hr2r : r2 ∈ records := List.mem_of_mem_filter hr2
      obtain ⟨m1, hm1, henc1⟩ := (hiff r1 hr1r).mp (List.mem_filter.mp hr1).2
      obtain ⟨m2, hm2, henc2⟩ := (hiff r2 hr2r).mp (List.mem_filter.mp hr2).2
      rw [henc1, henc2, cmMonthVal_toYyyymm y m1 hy1 hy2 hm1.1 hm1.2,
        cmMonthVal_toYyyymm y m2 hy1 hy2 hm2.1 hm2.2] at hmeq
      have hm12 : m1 = m2 := by omega
      exact hinj hr1r hr2r (by rw [henc1, henc2, hm12])
    have hsubset : ((records.filter
        (fun r => (intStrChars y).isPrefixOf r.contract_month)).map
          (fun r => cmMonthVal r.contract_month)) ⊆ month12List := by
      intro x hx
      obtain ⟨r, hr, rfl⟩ := List.mem_map.mp hx
      obtain ⟨mr, hmr, henc⟩ := (hiff r (List.mem_of_mem_filter hr)).mp
        (List.mem_filter.mp hr).2
      rw [henc, cmMonthVal_toYyyymm y mr hy1 hy2 hmr.1 hmr.2]
      exact mem_month12List mr.toNat (by omega) (by omega)
    have hlen12 : ((records.filter
        (fun r => (intStrChars y).isPrefixOf r.contract_month)).map
          (fun r => cmMonthVal r.contract_month)).length ≤ 12 :=
      (List.subperm_of_subset hmonnodup hsubset).length_le
    refine ⟨_, hget, hstrict, hperm, hmonnodup, ?_⟩
    rw [hlen]
    rw [List.length_map] at hlen12
    exact hlen12

/-- Witness for the amended C6: a single 2026-03 record store, year 2026:
the engine returns the singleton SQ date list. -/
theorem getSqDatesForYear_spec_amended_witness :
    calGetSqDatesForYear c4Store 2026 = .ok [⟨2026, 3, 13⟩] ∧
    (c4Records.filter (fun r => (intStrChars 2026).isPrefixOf r.contract_month) ≠ [] →
      ∃ l : List Date, calGetSqDatesForYear c4Store 2026 = .ok l ∧
        l.Pairwise (fun a b => dateLtb a b = true) ∧
        l.Perm ((c4Records.filter
          (fun r => (intStrChars 2026).isPrefixOf r.contract_month)).map
            (fun r => r.sq_date)) ∧
        ((c4Records.filter
          (fun r => (intStrChars 2026).isPrefixOf r.contract_month)).map
            (fun r => cmMonthVal r.contract_month)).Nodup ∧
        l.length ≤ 12) :=
  ⟨by decide,
    (getSqDatesForYear_spec_amended c4Store c4Records 2026 rfl (by decide) (by decide)
      (fun r hr => by
        simp only [c4Records, List.mem_cons, List.not_mem_nil, or_false] at hr
        exact ⟨2026, 3, by subst hr; exact ⟨⟨by decide, by decide⟩, ⟨by decide, by decide⟩, rfl⟩⟩)
      (by decide) (by decide)).2.2⟩

end MarketSched
